import Mathlib

/-!
Verification of the mass-tolerant peptide alignment and scoring engine of the
casanovo repository, together with the configuration/output handling of its
command-line entry point (`casanovo.py`).

The alignment engine itself (`aa_match_batch` / `aa_match_metrics`, imported by
`tests/test_unit.py` from `casanovo.denovo.evaluate`) is not part of the
available sources, so it is modelled here from the specification: masses are
rational numbers (all reference masses and tolerances are exact decimals), the
Aligner is the greedy cumulative-mass two-pointer scan of §4.2, the
MatchSelector is the two-direction comparison of §4.3, and the BatchAggregator
is the streaming reduction of §4.4.
-/

namespace Casanovo

/-- Modelled from the spec: the MassTable (§4.1), an immutable mapping from
residue token to monoisotopic mass; absent from src/.  Lookup of an absent
token yields `none` (the `LookupError` kind). -/
abbrev MassTable := List (String × ℚ)

/-- Modelled from the spec: `mass_of(token)` (§4.1), a pure lookup that fails
for an absent token. -/
def mass_of (tbl : MassTable) (tok : String) : Option ℚ :=
  (tbl.find? (fun e => e.1 = tok)).map (fun e => e.2)

/-- Modelled from the spec: resolving every token of a sequence in the
MassTable (§3); fails, with no silent default, as soon as one token is
absent. -/
def resolve (tbl : MassTable) : List String → Option (List ℚ)
  | [] => some []
  | tok :: rest =>
    match mass_of tbl tok, resolve tbl rest with
    | some m, some ms => some (m :: ms)
    | _, _ => none

/-- The Aligner's output (§4.2): the match vector together with the final
cursor positions reached in each sequence. -/
structure AlignResult where
  matchVector : List Bool
  finalI : Nat
  finalJ : Nat
  deriving DecidableEq

/-- The number of loop iterations still possible with the cursors at `i`,
`j`: the scan of §4.2 consumes at least one residue per step, so it performs
at most this many further steps. -/
def alignFuel (p t : List ℚ) (i j : Nat) : Nat :=
  (p.length - i) + (t.length - j)

/-- Modelled from the spec: the body of the Aligner's forward scan (§4.2,
steps 1–3); absent from src/.  Cursors `i`, `j`, running cumulative masses
`cp`, `ct`, and the match vector accumulator `acc` are threaded explicitly;
the extra fuel argument only bounds the recursion depth and is irrelevant
whenever it is at least `alignFuel p t i j` (`alignLoop_fuel_irrel`). -/
def alignLoop (epsAA epsCum : ℚ) (p t : List ℚ) :
    Nat → Nat → Nat → ℚ → ℚ → List Bool → AlignResult
  | 0, i, j, _, _, acc => ⟨acc, i, j⟩
  | fuel + 1, i, j, cp, ct, acc =>
    if h : i < p.length ∧ j < t.length then
      if |cp + p.get ⟨i, h.1⟩ - (ct + t.get ⟨j, h.2⟩)| < epsCum then
        alignLoop epsAA epsCum p t fuel (i + 1) (j + 1) (cp + p.get ⟨i, h.1⟩)
          (ct + t.get ⟨j, h.2⟩)
          (acc.set (max i j)
            (decide (|p.get ⟨i, h.1⟩ - t.get ⟨j, h.2⟩| < epsAA)))
      else if ct + t.get ⟨j, h.2⟩ > cp + p.get ⟨i, h.1⟩ then
        alignLoop epsAA epsCum p t fuel (i + 1) j (cp + p.get ⟨i, h.1⟩) ct acc
      else
        alignLoop epsAA epsCum p t fuel i (j + 1) cp (ct + t.get ⟨j, h.2⟩) acc
    else
      ⟨acc, i, j⟩

/-- The Aligner's forward scan started at an arbitrary state (§4.2, step 2). -/
def alignFrom (epsAA epsCum : ℚ) (p t : List ℚ) (i j : Nat) (cp ct : ℚ)
    (acc : List Bool) : AlignResult :=
  alignLoop epsAA epsCum p t (alignFuel p t i j) i j cp ct acc

/-- Modelled from the spec: the indices at which the forward scan records a
match verdict (`max(i, j)` at each cumulative-convergence step, §4.2.2);
positions outside this list are never assigned during the scan. -/
def writesLoop (epsAA epsCum : ℚ) (p t : List ℚ) :
    Nat → Nat → Nat → ℚ → ℚ → List Nat
  | 0, _, _, _, _ => []
  | fuel + 1, i, j, cp, ct =>
    if h : i < p.length ∧ j < t.length then
      if |cp + p.get ⟨i, h.1⟩ - (ct + t.get ⟨j, h.2⟩)| < epsCum then
        max i j ::
          writesLoop epsAA epsCum p t fuel (i + 1) (j + 1)
            (cp + p.get ⟨i, h.1⟩) (ct + t.get ⟨j, h.2⟩)
      else if ct + t.get ⟨j, h.2⟩ > cp + p.get ⟨i, h.1⟩ then
        writesLoop epsAA epsCum p t fuel (i + 1) j (cp + p.get ⟨i, h.1⟩) ct
      else
        writesLoop epsAA epsCum p t fuel i (j + 1) cp (ct + t.get ⟨j, h.2⟩)
    else
      []

/-- The positions the scan assigns when started at an arbitrary state. -/
def writesFrom (epsAA epsCum : ℚ) (p t : List ℚ) (i j : Nat) (cp ct : ℚ) :
    List Nat :=
  writesLoop epsAA epsCum p t (alignFuel p t i j) i j cp ct

/-- The positions the forward scan assigns, from the initial state. -/
def alignWrites (epsAA epsCum : ℚ) (p t : List ℚ) : List Nat :=
  writesFrom epsAA epsCum p t 0 0 0 0

/-- Modelled from the spec: the forward-direction Aligner (§4.2), scanning
from index 0 upward with both cursors and cumulative masses initialized to
zero and the match vector initialized to all-`false`. -/
def aligner (epsAA epsCum : ℚ) (p t : List ℚ) : AlignResult :=
  alignFrom epsAA epsCum p t 0 0 0 0
    (List.replicate (max p.length t.length) false)

/-- Modelled from the spec: the backward-direction Aligner (§4.2), implemented
identically on reversed copies of both sequences, the resulting match vector
reversed back to original order. -/
def alignerBackward (epsAA epsCum : ℚ) (p t : List ℚ) : AlignResult :=
  let r := aligner epsAA epsCum p.reverse t.reverse
  ⟨r.matchVector.reverse, r.finalI, r.finalJ⟩

/-- The count of `true` entries of a match vector. -/
def countTrue (v : List Bool) : Nat := v.count true

/-- Modelled from the spec: the engine's error kinds (§7). -/
inductive EngineError where
  | lookupError
  | invalidModeError
  deriving DecidableEq

/-- A per-pair result (§3): the chosen match vector together with the residue
counts of the predicted and the true sequence. -/
structure PairResult where
  matchVector : List Bool
  n_pred_residues : Nat
  n_truth_residues : Nat
  deriving DecidableEq

/-- Modelled from the spec: the MatchSelector (§4.3); absent from src/.  The
mode string is validated first (`InvalidModeError` is raised before any
alignment work, §7), then every token of both sequences is resolved
(`LookupError` on failure), then the Aligner runs forward and, for
`mode = "best"`, also backward; the direction with the greater count of
`true` entries wins, ties preferring forward. -/
def matchSelector (mode : String) (epsAA epsCum : ℚ) (tbl : MassTable)
    (pred truth : List String) : Except EngineError PairResult :=
  if mode = "best" ∨ mode = "forward" ∨ mode = "backward" then
    match resolve tbl pred, resolve tbl truth with
    | some p, some t =>
      let fwd := (aligner epsAA epsCum p t).matchVector
      let mv :=
        if mode = "forward" then fwd
        else
          let bwd := (alignerBackward epsAA epsCum p t).matchVector
          if mode = "backward" then bwd
          else if countTrue fwd ≥ countTrue bwd then fwd else bwd
      Except.ok ⟨mv, pred.length, truth.length⟩
    | _, _ => Except.error EngineError.lookupError
  else
    Except.error EngineError.invalidModeError

/-- Whether a pair counts as a full peptide-level match (§4.4): the match
vector is entirely `true` and its length equals both residue counts. -/
def fullMatch (r : PairResult) : Bool :=
  r.matchVector.all (fun b => b) &&
    r.matchVector.length == r.n_pred_residues &&
    r.matchVector.length == r.n_truth_residues

/-- The BatchAggregator's accumulator (§4.4, §9): the running sums maintained
by the streaming reduction. -/
@[ext]
structure BatchAcc where
  total_matches : Nat
  n_pred_aa : Nat
  n_truth_aa : Nat
  n_full_matches : Nat
  n_pairs : Nat
  deriving DecidableEq

/-- The empty accumulator. -/
def emptyAcc : BatchAcc := ⟨0, 0, 0, 0, 0⟩

/-- Modelled from the spec: consuming one pair result into the accumulator
(§4.4). -/
def stepAcc (a : BatchAcc) (r : PairResult) : BatchAcc :=
  ⟨a.total_matches + countTrue r.matchVector,
   a.n_pred_aa + r.n_pred_residues,
   a.n_truth_aa + r.n_truth_residues,
   a.n_full_matches + (if fullMatch r then 1 else 0),
   a.n_pairs + 1⟩

/-- Combining two accumulators by plain summation (§5, §8.4). -/
def combineAcc (a b : BatchAcc) : BatchAcc :=
  ⟨a.total_matches + b.total_matches,
   a.n_pred_aa + b.n_pred_aa,
   a.n_truth_aa + b.n_truth_aa,
   a.n_full_matches + b.n_full_matches,
   a.n_pairs + b.n_pairs⟩

/-- Modelled from the spec: the BatchAggregator's incremental pair-by-pair
reduction over an ordered sequence of pair results (§4.4); absent from
src/. -/
def batchAggregate (rs : List PairResult) : BatchAcc :=
  rs.foldl stepAcc emptyAcc

/-- The three scalar batch metrics (§3, §4.4). -/
structure BatchMetrics where
  aa_precision : ℚ
  aa_recall : ℚ
  peptide_precision : ℚ
  deriving DecidableEq

/-- Modelled from the spec: deriving the scalar metrics from the accumulated
sums, with the division-by-zero guards of §4.4/§7. -/
def metricsOfAcc (a : BatchAcc) : BatchMetrics :=
  ⟨if a.n_pred_aa = 0 then 0 else (a.total_matches : ℚ) / a.n_pred_aa,
   if a.n_truth_aa = 0 then 0 else (a.total_matches : ℚ) / a.n_truth_aa,
   (a.n_full_matches : ℚ) / a.n_pairs⟩

/-- Modelled from the spec: `aa_match_metrics` (§4.4), the BatchAggregator's
scalar output for a batch of pair results; absent from src/. -/
def aa_match_metrics (rs : List PairResult) : BatchMetrics :=
  metricsOfAcc (batchAggregate rs)

/-- The reference masses of spec §8.7 (exact decimal rationals). -/
def refTable : MassTable :=
  [("S", 87.032), ("P", 97.053), ("E", 129.043), ("L", 113.084),
   ("I", 113.084), ("K", 128.095), ("A", 71.037), ("Q", 128.059)]

/-- The eight predicted sequences of spec §8.7 / `test_eval_metrics`. -/
def specPreds : List (List String) :=
  [["S", "P", "E", "I", "K"],
   ["S", "P", "A", "E", "L"],
   ["S", "P", "A", "E", "K", "L"],
   ["A", "S", "P", "E", "K", "L"],
   ["S", "P", "E", "K", "L"],
   ["S", "P", "E", "L", "Q"],
   ["P", "S", "E", "K", "L"],
   ["S", "P", "E", "K"]]

/-- The ground-truth sequence of spec §8.7, `"SPELK"`. -/
def specTruth : List String := ["S", "P", "E", "L", "K"]

/-- Running the spec-modelled MatchSelector (`mode = "best"`, `ε_aa = 0.1`,
`ε_cum = 0.5`) over the batch of spec §8.7. -/
def specBatch : List PairResult :=
  specPreds.filterMap
    (fun p => (matchSelector "best" 0.1 0.5 refTable p specTruth).toOption)

/-- Filesystem events on the mzTab output file performed by the denovo branch
of `main` (src/casanovo/casanovo.py). -/
inductive FsEvent where
  | createMztab
  | writeHeaderRows
  | appendPredictions
  | removeMztab
  deriving DecidableEq

/-- Whether the mzTab file exists after a trace of events (initially it does
not exist): `open(filename_out, "w")` creates it, writing keeps it,
`os.remove` deletes it. -/
def mztabAfter (evs : List FsEvent) : Bool :=
  evs.foldl
    (fun ex e =>
      match e with
      | FsEvent.createMztab => true
      | FsEvent.writeHeaderRows => ex
      | FsEvent.appendPredictions => ex
      | FsEvent.removeMztab => false)
    false

/-- A Python runtime value, as far as the configuration coercion of `main`
(src/casanovo/casanovo.py, lines 157–166) is concerned. -/
inductive PyVal where
  | vNone
  | vBool (b : Bool)
  | vInt (n : Int)
  | vFloat (q : ℚ)
  | vStr (s : String)
  deriving DecidableEq

/-- The numeric value of a run of decimal digits. -/
def digitsVal (cs : List Char) : Nat :=
  cs.foldl (fun n c => n * 10 + (c.toNat - 48)) 0

/-- The value of an unsigned decimal literal (digits, optionally a dot and
more digits, at least one digit overall), `none` otherwise. -/
def parseDecimalBody (cs : List Char) : Option ℚ :=
  let intPart := cs.takeWhile Char.isDigit
  let rest := cs.dropWhile Char.isDigit
  match rest with
  | [] => if intPart.isEmpty then none else some (digitsVal intPart)
  | '.' :: frac =>
    if frac.all Char.isDigit && !(intPart.isEmpty && frac.isEmpty) then
      some ((digitsVal intPart : ℚ) + (digitsVal frac : ℚ) / (10 : ℚ) ^ frac.length)
    else none
  | _ => none

/-- The strings accepted by Python's `float` constructor, restricted to plain
signed decimal notation, mapped to their exact rational value. -/
def parseDecimal (s : String) : Option ℚ :=
  match s.toList with
  | '+' :: rest => parseDecimalBody rest
  | '-' :: rest => (parseDecimalBody rest).map (fun q => -q)
  | cs => parseDecimalBody cs

/-- Python's `float(x)` conversion on the modelled values: numbers convert
exactly, `bool` converts to 0 or 1, decimal strings parse, and everything
else raises `TypeError`/`ValueError`, modelled as `none`. -/
def pyFloatFn : PyVal → Option ℚ
  | PyVal.vBool b => some (if b then 1 else 0)
  | PyVal.vInt n => some (n : ℚ)
  | PyVal.vFloat q => some q
  | PyVal.vStr s => parseDecimal s
  | PyVal.vNone => none

/-- Python's `str(x)` on the modelled values; it never raises. -/
def pyStrFn : PyVal → String
  | PyVal.vStr s => s
  | PyVal.vNone => "None"
  | PyVal.vBool b => if b then "True" else "False"
  | PyVal.vInt n => toString n
  | PyVal.vFloat q => toString q

/-- The exception kinds a Python expression of this embedding can raise. -/
inductive PyExc where
  | typeError
  deriving DecidableEq

/-- Python's `os.linesep`: a plain string value (`"\n"`, or `"\r\n"` on
Windows), not a callable. -/
def osLinesep : PyVal := PyVal.vStr "\n"

/-- Calling a Python value with no arguments: none of the modelled value
kinds (`None`, `bool`, `int`, `float`, `str`) is callable, so the call
raises `TypeError`, modelled as `none`. -/
def pyCall0 : PyVal → Option PyVal
  | PyVal.vNone => none
  | PyVal.vBool _ => none
  | PyVal.vInt _ => none
  | PyVal.vFloat _ => none
  | PyVal.vStr _ => none

/-- Shallow embedding of `_write_mztab_header` (src/casanovo/casanovo.py,
lines 208–312): `with open(filename_out, "w")` creates (truncates) the mzTab
file, then the csv writer is constructed with `lineterminator=os.linesep()`
(line 310).  `os.linesep` is a plain string, so that call applies a string
as a function and raises `TypeError` before any metadata row is written;
only if the call returned a value would the header rows be written.
Returns the trace of events on the mzTab file and the exception raised, if
any. -/
def writeMztabHeader : List FsEvent × Option PyExc :=
  match pyCall0 osLinesep with
  | some _ => ([FsEvent.createMztab, FsEvent.writeHeaderRows], none)
  | none => ([FsEvent.createMztab], some PyExc.typeError)

/-- Shallow embedding of the denovo branch of `main`
(src/casanovo/casanovo.py, lines 186–199): `_write_mztab_header` runs first,
outside any handler, so an exception it raises escapes `main` immediately;
only if it returns normally does `model_runner.predict` run — inside a
`try` with a bare `except:` that deletes the mzTab file (`os.remove`) on an
exception of any kind `ExcKind` and falls through without re-raising.
Returns the trace of events on the mzTab file together with the exception,
if any, that escapes `main`. -/
def mainDenovo (ExcKind : Type) (predictOutcome : Option ExcKind) :
    List FsEvent × Option (PyExc ⊕ ExcKind) :=
  match writeMztabHeader with
  | (evs, some e) => (evs, some (Sum.inl e))
  | (evs, none) =>
    match predictOutcome with
    | none => (evs ++ [FsEvent.appendPredictions], none)
    | some _ => (evs ++ [FsEvent.removeMztab], none)

/-- The error kinds escaping the configuration-coercion phase of `main`
(src/casanovo/casanovo.py, lines 157–166): the per-key loop catches
`TypeError`/`ValueError` and re-raises a `TypeError` naming the key, while
the residues coercion raises the raw conversion error. -/
inductive ConfigError where
  | wrappedTypeError (key : String)
  | rawConvError
  deriving DecidableEq

/-- Shallow embedding of the per-key typed-coercion loop
(src/casanovo/casanovo.py, lines 157–163): each configured key's coercion is
guarded by `try/except (TypeError, ValueError)` and a failure is re-raised as
a `TypeError` naming the key.  The coercion applied to each key is abstract
(`applyType`, `none` meaning the conversion raises). -/
def coerceTyped (applyType : String → PyVal → Option PyVal) :
    List (String × PyVal) → Except ConfigError (List (String × PyVal))
  | [] => Except.ok []
  | kv :: rest =>
    match applyType kv.1 kv.2 with
    | some v =>
      match coerceTyped applyType rest with
      | Except.ok out => Except.ok ((kv.1, v) :: out)
      | Except.error e => Except.error e
    | none => Except.error (ConfigError.wrappedTypeError kv.1)

/-- Shallow embedding of the residues coercion (src/casanovo/casanovo.py,
lines 164–166), `config["residues"] = {str(aa): float(mass) for aa, mass in
config["residues"].items()}`: it sits outside the per-key `try/except`, so a
mass that `float` rejects propagates as the raw conversion error. -/
def coerceResidues : List (PyVal × PyVal) → Except ConfigError (List (String × ℚ))
  | [] => Except.ok []
  | am :: rest =>
    match pyFloatFn am.2 with
    | some q =>
      match coerceResidues rest with
      | Except.ok out => Except.ok ((pyStrFn am.1, q) :: out)
      | Except.error e => Except.error e
    | none => Except.error ConfigError.rawConvError

/-- The configuration-coercion phase of `main` (src/casanovo/casanovo.py,
lines 157–166): the typed per-key loop runs first, then the residues
coercion. -/
def coerceConfig (applyType : String → PyVal → Option PyVal)
    (typed : List (String × PyVal)) (residues : List (PyVal × PyVal)) :
    Except ConfigError (List (String × PyVal) × List (String × ℚ)) :=
  match coerceTyped applyType typed with
  | Except.error e => Except.error e
  | Except.ok tout =>
    match coerceResidues residues with
    | Except.error e => Except.error e
    | Except.ok rout => Except.ok (tout, rout)

end Casanovo

deriving instance DecidableEq for Except

namespace Casanovo

theorem alignLoop_succ (epsAA epsCum : ℚ) (p t : List ℚ) :
    ∀ fuel i j cp ct acc, alignFuel p t i j ≤ fuel →
      alignLoop epsAA epsCum p t (fuel + 1) i j cp ct acc
        = alignLoop epsAA epsCum p t fuel i j cp ct acc := by
  intro fuel
  induction fuel with
  | zero =>
    intro i j cp ct acc hf
    have h : ¬(i < p.length ∧ j < t.length) := by
      unfold alignFuel at hf; omega
    simp only [alignLoop, dif_neg h]
  | succ f ih =>
    intro i j cp ct acc hf
    by_cases h : i < p.length ∧ j < t.length
    · simp only [alignLoop, dif_pos h]
      split
      · exact ih _ _ _ _ _ (by unfold alignFuel at hf ⊢; omega)
      · split
        · exact ih _ _ _ _ _ (by unfold alignFuel at hf ⊢; omega)
        · exact ih _ _ _ _ _ (by unfold alignFuel at hf ⊢; omega)
    · simp only [alignLoop, dif_neg h]

theorem alignLoop_of_le (epsAA epsCum : ℚ) (p t : List ℚ) :
    ∀ fuel i j cp ct acc, alignFuel p t i j ≤ fuel →
      alignLoop epsAA epsCum p t fuel i j cp ct acc
        = alignFrom epsAA epsCum p t i j cp ct acc := by
  intro fuel
  induction fuel with
  | zero =>
    intro i j cp ct acc hf
    have h0 : alignFuel p t i j = 0 := Nat.le_zero.mp hf
    rw [alignFrom, h0]
  | succ f ih =>
    intro i j cp ct acc hf
    by_cases hm : alignFuel p t i j ≤ f
    · rw [alignLoop_succ epsAA epsCum p t f i j cp ct acc hm, ih _ _ _ _ _ hm]
    · have hF : alignFuel p t i j = f + 1 := by omega
      rw [alignFrom, hF]

theorem alignFrom_step (epsAA epsCum : ℚ) (p t : List ℚ) (i j : Nat)
    (cp ct : ℚ) (acc : List Bool) :
    alignFrom epsAA epsCum p t i j cp ct acc =
      if h : i < p.length ∧ j < t.length then
        if |cp + p.get ⟨i, h.1⟩ - (ct + t.get ⟨j, h.2⟩)| < epsCum then
          alignFrom epsAA epsCum p t (i + 1) (j + 1) (cp + p.get ⟨i, h.1⟩)
            (ct + t.get ⟨j, h.2⟩)
            (acc.set (max i j)
              (decide (|p.get ⟨i, h.1⟩ - t.get ⟨j, h.2⟩| < epsAA)))
        else if ct + t.get ⟨j, h.2⟩ > cp + p.get ⟨i, h.1⟩ then
          alignFrom epsAA epsCum p t (i + 1) j (cp + p.get ⟨i, h.1⟩) ct acc
        else
          alignFrom epsAA epsCum p t i (j + 1) cp (ct + t.get ⟨j, h.2⟩) acc
      else
        ⟨acc, i, j⟩ := by
  by_cases h : i < p.length ∧ j < t.length
  · rw [dif_pos h]
    obtain ⟨m, hm⟩ : ∃ m, alignFuel p t i j = m + 1 :=
      ⟨alignFuel p t i j - 1, by unfold alignFuel; omega⟩
    rw [alignFrom, hm]
    simp only [alignLoop, dif_pos h]
    split
    · exact alignLoop_of_le _ _ _ _ _ _ _ _ _ _
        (by unfold alignFuel at hm ⊢; omega)
    · split
      · exact alignLoop_of_le _ _ _ _ _ _ _ _ _ _
          (by unfold alignFuel at hm ⊢; omega)
      · exact alignLoop_of_le _ _ _ _ _ _ _ _ _ _
          (by unfold alignFuel at hm ⊢; omega)
  · rw [dif_neg h, alignFrom]
    cases hF : alignFuel p t i j with
    | zero => rfl
    | succ m => simp only [alignLoop, dif_neg h]

theorem writesLoop_succ (epsAA epsCum : ℚ) (p t : List ℚ) :
    ∀ fuel i j cp ct, alignFuel p t i j ≤ fuel →
      writesLoop epsAA epsCum p t (fuel + 1) i j cp ct
        = writesLoop epsAA epsCum p t fuel i j cp ct := by
  intro fuel
  induction fuel with
  | zero =>
    intro i j cp ct hf
    have h : ¬(i < p.length ∧ j < t.length) := by
      unfold alignFuel at hf; omega
    simp only [writesLoop, dif_neg h]
  | succ f ih =>
    intro i j cp ct hf
    by_cases h : i < p.length ∧ j < t.length
    · simp only [writesLoop, dif_pos h]
      split
      · exact congrArg (List.cons (max i j))
          (ih _ _ _ _ (by unfold alignFuel at hf ⊢; omega))
      · split
        · exact ih _ _ _ _ (by unfold alignFuel at hf ⊢; omega)
        · exact ih _ _ _ _ (by unfold alignFuel at hf ⊢; omega)
    · simp only [writesLoop, dif_neg h]

theorem writesLoop_of_le (epsAA epsCum : ℚ) (p t : List ℚ) :
    ∀ fuel i j cp ct, alignFuel p t i j ≤ fuel →
      writesLoop epsAA epsCum p t fuel i j cp ct
        = writesFrom epsAA epsCum p t i j cp ct := by
  intro fuel
  induction fuel with
  | zero =>
    intro i j cp ct hf
    have h0 : alignFuel p t i j = 0 := Nat.le_zero.mp hf
    rw [writesFrom, h0]
  | succ f ih =>
    intro i j cp ct hf
    by_cases hm : alignFuel p t i j ≤ f
    · rw [writesLoop_succ epsAA epsCum p t f i j cp ct hm, ih _ _ _ _ hm]
    · have hF : alignFuel p t i j = f + 1 := by omega
      rw [writesFrom, hF]

theorem alignLoop_length (epsAA epsCum : ℚ) (p t : List ℚ) :
    ∀ fuel i j cp ct acc,
      ((alignLoop epsAA epsCum p t fuel i j cp ct acc).matchVector).length
        = acc.length := by
  intro fuel
  induction fuel with
  | zero => intro i j cp ct acc; rfl
  | succ f ih =>
    intro i j cp ct acc
    by_cases h : i < p.length ∧ j < t.length
    · simp only [alignLoop, dif_pos h]
      split
      · rw [ih, List.length_set]
      · split
        · exact ih _ _ _ _ _
        · exact ih _ _ _ _ _
    · simp only [alignLoop, dif_neg h]

theorem alignLoop_not_written (epsAA epsCum : ℚ) (p t : List ℚ) :
    ∀ fuel i j cp ct acc k,
      k ∉ writesLoop epsAA epsCum p t fuel i j cp ct →
      ((alignLoop epsAA epsCum p t fuel i j cp ct acc).matchVector)[k]?
        = acc[k]? := by
  intro fuel
  induction fuel with
  | zero => intro i j cp ct acc k _; rfl
  | succ f ih =>
    intro i j cp ct acc k hk
    by_cases h : i < p.length ∧ j < t.length
    · simp only [writesLoop, dif_pos h] at hk
      simp only [alignLoop, dif_pos h]
      by_cases hc : |cp + p.get ⟨i, h.1⟩ - (ct + t.get ⟨j, h.2⟩)| < epsCum
      · rw [if_pos hc] at hk ⊢
        simp only [List.mem_cons, not_or] at hk
        rw [ih _ _ _ _ _ _ hk.2, List.getElem?_set_ne (fun he => hk.1 he.symm)]
      · rw [if_neg hc] at hk ⊢
        by_cases hgt : ct + t.get ⟨j, h.2⟩ > cp + p.get ⟨i, h.1⟩
        · rw [if_pos hgt] at hk ⊢
          exact ih _ _ _ _ _ _ hk
        · rw [if_neg hgt] at hk ⊢
          exact ih _ _ _ _ _ _ hk
    · simp only [alignLoop, dif_neg h]

theorem writesLoop_ge (epsAA epsCum : ℚ) (p t : List ℚ) :
    ∀ fuel i j cp ct m, m ∈ writesLoop epsAA epsCum p t fuel i j cp ct →
      max i j ≤ m := by
  intro fuel
  induction fuel with
  | zero =>
    intro i j cp ct m hm
    simp [writesLoop] at hm
  | succ f ih =>
    intro i j cp ct m hm
    by_cases h : i < p.length ∧ j < t.length
    · simp only [writesLoop, dif_pos h] at hm
      by_cases hc : |cp + p.get ⟨i, h.1⟩ - (ct + t.get ⟨j, h.2⟩)| < epsCum
      · rw [if_pos hc] at hm
        rcases List.mem_cons.mp hm with h1 | h2
        · omega
        · have := ih _ _ _ _ _ h2
          omega
      · rw [if_neg hc] at hm
        by_cases hgt : ct + t.get ⟨j, h.2⟩ > cp + p.get ⟨i, h.1⟩
        · rw [if_pos hgt] at hm
          have := ih _ _ _ _ _ hm
          omega
        · rw [if_neg hgt] at hm
          have := ih _ _ _ _ _ hm
          omega
    · simp only [writesLoop, dif_neg h] at hm
      exact absurd hm (List.not_mem_nil m)

end Casanovo

namespace Casanovo

theorem alignLoop_self_true (epsAA epsCum : ℚ) (p : List ℚ)
    (hA : 0 < epsAA) (hC : 0 < epsCum) :
    ∀ fuel i c acc, alignFuel p p i i ≤ fuel → acc.length = p.length →
      (∀ k, k < i → acc[k]? = some true) →
      ∀ k, k < p.length →
        ((alignLoop epsAA epsCum p p fuel i i c c acc).matchVector)[k]?
          = some true := by
  intro fuel
  induction fuel with
  | zero =>
    intro i c acc hf hlen hbel k hk
    have hip : p.length ≤ i := by unfold alignFuel at hf; omega
    exact hbel k (by omega)
  | succ f ih =>
    intro i c acc hf hlen hbel k hk
    by_cases h : i < p.length ∧ i < p.length
    · simp only [alignLoop, dif_pos h]
      have hc0 : |c + p.get ⟨i, h.1⟩ - (c + p.get ⟨i, h.2⟩)| < epsCum := by
        rw [sub_self, abs_zero]; exact hC
      have hval : decide (|p.get ⟨i, h.1⟩ - p.get ⟨i, h.2⟩| < epsAA) = true :=
        decide_eq_true (by rw [sub_self, abs_zero]; exact hA)
      rw [if_pos hc0, hval, Nat.max_self]
      exact ih (i + 1) (c + p.get ⟨i, h.1⟩) (acc.set i true)
        (by unfold alignFuel at hf ⊢; omega)
        (by rw [List.length_set]; exact hlen)
        (fun k' hk' => by
          by_cases hki : k' = i
          · subst hki
            exact List.getElem?_set_self (by rw [hlen]; exact h.1)
          · rw [List.getElem?_set_ne (fun he => hki he.symm)]
            exact hbel k' (by omega))
        k hk
    · have hni : ¬ i < p.length := fun hi => h ⟨hi, hi⟩
      simp only [alignLoop, dif_neg h]
      exact hbel k (by omega)

theorem resolve_length (tbl : MassTable) :
    ∀ s p, resolve tbl s = some p → p.length = s.length := by
  intro s
  induction s with
  | nil =>
    intro p h
    simp only [resolve, Option.some.injEq] at h
    subst h; rfl
  | cons tok rest ih =>
    intro p h
    simp only [resolve] at h
    split at h
    next m ms hm hr =>
      cases h
      simp [ih ms hr]
    next =>
      exact Option.noConfusion h

theorem matchSelector_modes (epsAA epsCum : ℚ) (tbl : MassTable)
    (pred truth : List String) (p t : List ℚ)
    (hp : resolve tbl pred = some p) (ht : resolve tbl truth = some t) :
    matchSelector "forward" epsAA epsCum tbl pred truth
        = Except.ok ⟨(aligner epsAA epsCum p t).matchVector,
            pred.length, truth.length⟩
    ∧ matchSelector "backward" epsAA epsCum tbl pred truth
        = Except.ok ⟨(alignerBackward epsAA epsCum p t).matchVector,
            pred.length, truth.length⟩
    ∧ matchSelector "best" epsAA epsCum tbl pred truth
        = Except.ok ⟨if countTrue (aligner epsAA epsCum p t).matchVector ≥
              countTrue (alignerBackward epsAA epsCum p t).matchVector
            then (aligner epsAA epsCum p t).matchVector
            else (alignerBackward epsAA epsCum p t).matchVector,
            pred.length, truth.length⟩ := by
  refine ⟨?_, ?_, ?_⟩ <;> simp [matchSelector, hp, ht]

end Casanovo

namespace Casanovo

theorem alignFrom_length (epsAA epsCum : ℚ) (p t : List ℚ) (i j : Nat)
    (cp ct : ℚ) (acc : List Bool) :
    ((alignFrom epsAA epsCum p t i j cp ct acc).matchVector).length
      = acc.length :=
  alignLoop_length epsAA epsCum p t (alignFuel p t i j) i j cp ct acc

theorem alignFrom_not_written (epsAA epsCum : ℚ) (p t : List ℚ) (i j : Nat)
    (cp ct : ℚ) (acc : List Bool) (k : Nat)
    (hk : k ∉ writesFrom epsAA epsCum p t i j cp ct) :
    ((alignFrom epsAA epsCum p t i j cp ct acc).matchVector)[k]? = acc[k]? :=
  alignLoop_not_written epsAA epsCum p t (alignFuel p t i j) i j cp ct acc k hk

theorem writesFrom_ge (epsAA epsCum : ℚ) (p t : List ℚ) (i j : Nat)
    (cp ct : ℚ) (m : Nat) (hm : m ∈ writesFrom epsAA epsCum p t i j cp ct) :
    max i j ≤ m :=
  writesLoop_ge epsAA epsCum p t (alignFuel p t i j) i j cp ct m hm

theorem aligner_self (epsAA epsCum : ℚ) (hA : 0 < epsAA) (hC : 0 < epsCum)
    (p : List ℚ) :
    (aligner epsAA epsCum p p).matchVector = List.replicate p.length true := by
  have hlenacc : (List.replicate (max p.length p.length) false).length
      = p.length := by simp
  apply List.ext_getElem?
  intro k
  by_cases hk : k < p.length
  · rw [List.getElem?_replicate_of_lt hk]
    exact alignLoop_self_true epsAA epsCum p hA hC (alignFuel p p 0 0) 0 0
      (List.replicate (max p.length p.length) false) le_rfl hlenacc
      (fun k' hk' => absurd hk' (Nat.not_lt_zero k')) k hk
  · rw [List.getElem?_eq_none, List.getElem?_eq_none]
    · rw [List.length_replicate]; omega
    · unfold aligner
      rw [alignFrom_length, hlenacc]; omega

theorem alignerBackward_self (epsAA epsCum : ℚ) (hA : 0 < epsAA)
    (hC : 0 < epsCum) (p : List ℚ) :
    (alignerBackward epsAA epsCum p p).matchVector
      = List.replicate p.length true := by
  show ((aligner epsAA epsCum p.reverse p.reverse).matchVector).reverse
    = List.replicate p.length true
  rw [aligner_self epsAA epsCum hA hC p.reverse, List.length_reverse,
    List.reverse_replicate]

theorem countTrue_replicate_true (n : Nat) :
    countTrue (List.replicate n true) = n := by
  unfold countTrue
  rw [List.count_replicate]
  simp

theorem foldl_stepAcc (rs : List PairResult) :
    ∀ a : BatchAcc, rs.foldl stepAcc a = combineAcc a (batchAggregate rs) := by
  induction rs with
  | nil =>
    intro a
    unfold batchAggregate
    simp only [List.foldl_nil]
    ext <;> simp [combineAcc, emptyAcc]
  | cons r rest ih =>
    intro a
    unfold batchAggregate
    simp only [List.foldl_cons]
    rw [ih (stepAcc a r), ih (stepAcc emptyAcc r)]
    ext <;> simp [combineAcc, stepAcc, emptyAcc] <;> omega

theorem batchAggregate_append (xs ys : List PairResult) :
    batchAggregate (xs ++ ys)
      = combineAcc (batchAggregate xs) (batchAggregate ys) := by
  unfold batchAggregate
  rw [List.foldl_append]
  exact foldl_stepAcc ys (List.foldl stepAcc emptyAcc xs)

theorem batchAggregate_sums (rs : List PairResult) :
    batchAggregate rs =
      ⟨(rs.map (fun r => countTrue r.matchVector)).sum,
       (rs.map (fun r => r.n_pred_residues)).sum,
       (rs.map (fun r => r.n_truth_residues)).sum,
       rs.countP (fun r => fullMatch r),
       rs.length⟩ := by
  induction rs with
  | nil => rfl
  | cons r rest ih =>
    have hcons : r :: rest = [r] ++ rest := rfl
    rw [hcons, batchAggregate_append, ih]
    ext <;> simp [combineAcc, batchAggregate, stepAcc, emptyAcc,
      List.countP_cons] <;> omega

end Casanovo

namespace Casanovo

theorem aligner_not_written_false (epsAA epsCum : ℚ) (p t : List ℚ) (k : Nat)
    (hk : k < max p.length t.length)
    (hnw : k ∉ alignWrites epsAA epsCum p t) :
    ((aligner epsAA epsCum p t).matchVector)[k]? = some false := by
  unfold alignWrites at hnw
  unfold aligner
  rw [alignFrom_not_written _ _ _ _ _ _ _ _ _ k hnw,
    List.getElem?_replicate_of_lt hk]

/-- C2: at every in-range step of the forward Aligner scan, if the cumulative
masses converge within `ε_cum` the final match vector holds, at position
`max(i, j)`, the truth value of the individual-mass test `|mp − mt| < ε_aa`,
and the scan continues with both cursors advanced and both masses
accumulated; otherwise, if the truth side is ahead in cumulative mass, only
the predicted cursor advances (accumulating its mass) with no match recorded,
and otherwise only the truth cursor advances. -/
theorem C2_aligner_step (epsAA epsCum : ℚ) (p t : List ℚ) (i j : Nat)
    (cp ct : ℚ) (acc : List Bool)
    (hi : i < p.length) (hj : j < t.length)
    (hacc : acc.length = max p.length t.length) :
    (|cp + p.get ⟨i, hi⟩ - (ct + t.get ⟨j, hj⟩)| < epsCum →
      alignFrom epsAA epsCum p t i j cp ct acc
        = alignFrom epsAA epsCum p t (i + 1) (j + 1) (cp + p.get ⟨i, hi⟩)
            (ct + t.get ⟨j, hj⟩)
            (acc.set (max i j)
              (decide (|p.get ⟨i, hi⟩ - t.get ⟨j, hj⟩| < epsAA)))
      ∧ ((alignFrom epsAA epsCum p t i j cp ct acc).matchVector)[max i j]?
          = some (decide (|p.get ⟨i, hi⟩ - t.get ⟨j, hj⟩| < epsAA)))
    ∧ (¬ |cp + p.get ⟨i, hi⟩ - (ct + t.get ⟨j, hj⟩)| < epsCum →
        ct + t.get ⟨j, hj⟩ > cp + p.get ⟨i, hi⟩ →
        alignFrom epsAA epsCum p t i j cp ct acc
          = alignFrom epsAA epsCum p t (i + 1) j (cp + p.get ⟨i, hi⟩) ct acc)
    ∧ (¬ |cp + p.get ⟨i, hi⟩ - (ct + t.get ⟨j, hj⟩)| < epsCum →
        ¬ ct + t.get ⟨j, hj⟩ > cp + p.get ⟨i, hi⟩ →
        alignFrom epsAA epsCum p t i j cp ct acc
          = alignFrom epsAA epsCum p t i (j + 1) cp (ct + t.get ⟨j, hj⟩) acc) := by
  have hstep := alignFrom_step epsAA epsCum p t i j cp ct acc
  rw [dif_pos (⟨hi, hj⟩ : i < p.length ∧ j < t.length)] at hstep
  refine ⟨fun hc => ⟨?_, ?_⟩, fun hc hgt => ?_, fun hc hgt => ?_⟩
  · rw [hstep, if_pos hc]
  · rw [hstep, if_pos hc]
    rw [alignFrom_not_written _ _ _ _ _ _ _ _ _ (max i j) ?notin]
    case notin =>
      intro hmem
      have hge := writesFrom_ge _ _ _ _ _ _ _ _ _ hmem
      omega
    exact List.getElem?_set_self (by rw [hacc]; exact max_lt_max hi hj)
  · rw [hstep, if_neg hc, if_pos hgt]
  · rw [hstep, if_neg hc, if_neg hgt]

/-- C4: for resolvable sequences (including empty ones) and every valid mode,
the MatchSelector's match vector has length exactly
`max(len(predicted), len(truth))`, and every position the scan never assigns
— in either the forward or the backward direction — is `false`. -/
theorem C4_match_vector_length (mode : String) (epsAA epsCum : ℚ)
    (tbl : MassTable) (pred truth : List String) (p t : List ℚ)
    (hp : resolve tbl pred = some p) (ht : resolve tbl truth = some t)
    (hmode : mode = "best" ∨ mode = "forward" ∨ mode = "backward") :
    (∃ r, matchSelector mode epsAA epsCum tbl pred truth = Except.ok r
        ∧ r.matchVector.length = max pred.length truth.length)
    ∧ (∀ k, k < max p.length t.length →
        k ∉ alignWrites epsAA epsCum p t →
        ((aligner epsAA epsCum p t).matchVector)[k]? = some false)
    ∧ (∀ k, k < max p.length t.length →
        (max p.length t.length - 1 - k)
            ∉ alignWrites epsAA epsCum p.reverse t.reverse →
        ((alignerBackward epsAA epsCum p t).matchVector)[k]? = some false) := by
  have hplen : p.length = pred.length := resolve_length tbl pred p hp
  have htlen : t.length = truth.length := resolve_length tbl truth t ht
  have hfwdlen : ((aligner epsAA epsCum p t).matchVector).length
      = max p.length t.length := by
    unfold aligner
    rw [alignFrom_length, List.length_replicate]
  have hbwdlen : ((alignerBackward epsAA epsCum p t).matchVector).length
      = max p.length t.length := by
    show ((aligner epsAA epsCum p.reverse t.reverse).matchVector).reverse.length
      = max p.length t.length
    rw [List.length_reverse]
    unfold aligner
    rw [alignFrom_length, List.length_replicate, List.length_reverse,
      List.length_reverse]
  obtain ⟨hf, hb, hbest⟩ :=
    matchSelector_modes epsAA epsCum tbl pred truth p t hp ht
  refine ⟨?_, ?_, ?_⟩
  · rcases hmode with h | h | h <;> subst h
    · rw [hbest]
      refine ⟨_, rfl, ?_⟩
      by_cases hcmp : countTrue (aligner epsAA epsCum p t).matchVector ≥
          countTrue (alignerBackward epsAA epsCum p t).matchVector
      · rw [if_pos hcmp, hfwdlen, hplen, htlen]
      · rw [if_neg hcmp, hbwdlen, hplen, htlen]
    · rw [hf]
      exact ⟨_, rfl, by rw [hfwdlen, hplen, htlen]⟩
    · rw [hb]
      exact ⟨_, rfl, by rw [hbwdlen, hplen, htlen]⟩
  · intro k hk hnw
    exact aligner_not_written_false epsAA epsCum p t k hk hnw
  · intro k hk hnw
    have hrevlen : ((aligner epsAA epsCum p.reverse t.reverse).matchVector).length
        = max p.length t.length := by
      unfold aligner
      rw [alignFrom_length, List.length_replicate, List.length_reverse,
        List.length_reverse]
    show (((aligner epsAA epsCum p.reverse t.reverse).matchVector).reverse)[k]?
      = some false
    rw [List.getElem?_reverse (by rw [hrevlen]; exact hk), hrevlen]
    exact aligner_not_written_false epsAA epsCum p.reverse t.reverse
      (max p.length t.length - 1 - k)
      (by simp only [List.length_reverse]; omega) hnw

/-- C5: the MatchSelector returns the forward Aligner result when its count
of `true` entries is at least the backward one's (ties prefer forward), the
backward result otherwise; modes `"forward"` and `"backward"` return the
corresponding one-directional result unconditionally; in all cases the
residue counts returned are the sequence lengths. -/
theorem C5_selector_choice (epsAA epsCum : ℚ) (tbl : MassTable)
    (pred truth : List String) (p t : List ℚ)
    (hp : resolve tbl pred = some p) (ht : resolve tbl truth = some t) :
    (countTrue (aligner epsAA epsCum p t).matchVector ≥
        countTrue (alignerBackward epsAA epsCum p t).matchVector →
      matchSelector "best" epsAA epsCum tbl pred truth
        = Except.ok ⟨(aligner epsAA epsCum p t).matchVector,
            pred.length, truth.length⟩)
    ∧ (countTrue (aligner epsAA epsCum p t).matchVector <
        countTrue (alignerBackward epsAA epsCum p t).matchVector →
      matchSelector "best" epsAA epsCum tbl pred truth
        = Except.ok ⟨(alignerBackward epsAA epsCum p t).matchVector,
            pred.length, truth.length⟩)
    ∧ matchSelector "forward" epsAA epsCum tbl pred truth
        = Except.ok ⟨(aligner epsAA epsCum p t).matchVector,
            pred.length, truth.length⟩
    ∧ matchSelector "backward" epsAA epsCum tbl pred truth
        = Except.ok ⟨(alignerBackward epsAA epsCum p t).matchVector,
            pred.length, truth.length⟩ := by
  obtain ⟨hf, hb, hbest⟩ :=
    matchSelector_modes epsAA epsCum tbl pred truth p t hp ht
  exact ⟨fun hge => by rw [hbest, if_pos hge],
         fun hlt => by rw [hbest, if_neg (not_le.mpr hlt)],
         hf, hb⟩

end Casanovo

namespace Casanovo

/-- C3: the BatchAggregator's precision and recall are the quotients of the
summed counts, with the division-by-zero guards returning 0 instead of
raising. -/
theorem C3_metrics_guards (rs : List PairResult) :
    ((rs.map (fun r => r.n_pred_residues)).sum ≠ 0 →
      (aa_match_metrics rs).aa_precision
        = ((rs.map (fun r => countTrue r.matchVector)).sum : ℚ)
            / (Nat.cast ((rs.map (fun r => r.n_pred_residues)).sum) : ℚ))
    ∧ ((rs.map (fun r => r.n_pred_residues)).sum = 0 →
      (aa_match_metrics rs).aa_precision = 0)
    ∧ ((rs.map (fun r => r.n_truth_residues)).sum ≠ 0 →
      (aa_match_metrics rs).aa_recall
        = ((rs.map (fun r => countTrue r.matchVector)).sum : ℚ)
            / (Nat.cast ((rs.map (fun r => r.n_truth_residues)).sum) : ℚ))
    ∧ ((rs.map (fun r => r.n_truth_residues)).sum = 0 →
      (aa_match_metrics rs).aa_recall = 0) := by
  unfold aa_match_metrics
  rw [batchAggregate_sums rs]
  unfold metricsOfAcc
  dsimp only
  refine ⟨fun h0 => ?_, fun h0 => ?_, fun h0 => ?_, fun h0 => ?_⟩
  · exact if_neg h0
  · exact if_pos h0
  · exact if_neg h0
  · exact if_pos h0

/-- C7: aggregation is associative: aggregating two sub-batches separately
and combining the sums equals aggregating the concatenated batch in one
pass, and the incremental fold equals the batched summation formulas. -/
theorem C7_aggregation_assoc (xs ys rs : List PairResult) :
    batchAggregate (xs ++ ys)
        = combineAcc (batchAggregate xs) (batchAggregate ys)
    ∧ aa_match_metrics (xs ++ ys)
        = metricsOfAcc (combineAcc (batchAggregate xs) (batchAggregate ys))
    ∧ batchAggregate rs =
        ⟨(rs.map (fun r => countTrue r.matchVector)).sum,
         (rs.map (fun r => r.n_pred_residues)).sum,
         (rs.map (fun r => r.n_truth_residues)).sum,
         rs.countP (fun r => fullMatch r),
         rs.length⟩ :=
  ⟨batchAggregate_append xs ys,
   by unfold aa_match_metrics; rw [batchAggregate_append],
   batchAggregate_sums rs⟩

/-- C8: for every mode string other than "best", "forward" and "backward"
the MatchSelector fails with `InvalidModeError`, for all inputs — in
particular even when tokens would fail to resolve, so the mode check precedes
any alignment work or mass lookup. -/
theorem C8_invalid_mode (mode : String)
    (hmode : mode ≠ "best" ∧ mode ≠ "forward" ∧ mode ≠ "backward") :
    ∀ (epsAA epsCum : ℚ) (tbl : MassTable) (pred truth : List String),
      matchSelector mode epsAA epsCum tbl pred truth
        = Except.error EngineError.invalidModeError := by
  intro epsAA epsCum tbl pred truth
  unfold matchSelector
  exact if_neg (by
    rintro (h | h | h)
    · exact hmode.1 h
    · exact hmode.2.1 h
    · exact hmode.2.2 h)

theorem matchSelector_self (epsAA epsCum : ℚ) (hA : 0 < epsAA)
    (hC : 0 < epsCum) (mode : String)
    (hmode : mode = "best" ∨ mode = "forward" ∨ mode = "backward")
    (tbl : MassTable) (s : List String) (p : List ℚ)
    (hp : resolve tbl s = some p) :
    matchSelector mode epsAA epsCum tbl s s
      = Except.ok ⟨List.replicate s.length true, s.length, s.length⟩ := by
  obtain ⟨hf, hb, hbest⟩ := matchSelector_modes epsAA epsCum tbl s s p p hp hp
  have hlen : p.length = s.length := resolve_length tbl s p hp
  have hfwd : (aligner epsAA epsCum p p).matchVector
      = List.replicate s.length true := by
    rw [aligner_self epsAA epsCum hA hC p, hlen]
  have hbwd : (alignerBackward epsAA epsCum p p).matchVector
      = List.replicate s.length true := by
    rw [alignerBackward_self epsAA epsCum hA hC p, hlen]
  rcases hmode with h | h | h <;> subst h
  · rw [hbest, hfwd, hbwd, if_pos le_rfl]
  · rw [hf, hfwd]
  · rw [hb, hbwd]

theorem selfBatch_eq (epsAA epsCum : ℚ) (hA : 0 < epsAA) (hC : 0 < epsCum)
    (mode : String)
    (hmode : mode = "best" ∨ mode = "forward" ∨ mode = "backward")
    (tbl : MassTable) :
    ∀ seqs : List (List String),
      (∀ s ∈ seqs, ∃ p, resolve tbl s = some p) →
      seqs.filterMap (fun s => (matchSelector mode epsAA epsCum tbl s s).toOption)
        = seqs.map (fun s =>
            (⟨List.replicate s.length true, s.length, s.length⟩ : PairResult)) := by
  intro seqs
  induction seqs with
  | nil => intro _; rfl
  | cons s rest ih =>
    intro hres
    obtain ⟨p, hp⟩ := hres s (List.mem_cons_self s rest)
    simp only [List.filterMap_cons, List.map_cons,
      matchSelector_self epsAA epsCum hA hC mode hmode tbl s p hp,
      Except.toOption]
    exact congrArg (List.cons _)
      (ih (fun x hx => hres x (List.mem_cons_of_mem s hx)))

theorem fullMatch_replicate (n : Nat) :
    fullMatch ⟨List.replicate n true, n, n⟩ = true := by
  unfold fullMatch
  simp

end Casanovo

namespace Casanovo

/-- C6 (amended): with positive tolerances, aligning a resolvable sequence
against itself under any valid mode yields an all-`true` match vector, and a
nonempty batch of such self-pairs containing at least one nonempty sequence
yields aa_precision = aa_recall = peptide_precision = 1. -/
theorem C6_identity_match (epsAA epsCum : ℚ) (hA : 0 < epsAA)
    (hC : 0 < epsCum) (mode : String)
    (hmode : mode = "best" ∨ mode = "forward" ∨ mode = "backward")
    (tbl : MassTable) (seqs : List (List String))
    (hres : ∀ s ∈ seqs, ∃ p, resolve tbl s = some p)
    (hne : seqs ≠ []) (hsome : ∃ s ∈ seqs, s ≠ []) :
    (∀ s ∈ seqs, matchSelector mode epsAA epsCum tbl s s
        = Except.ok ⟨List.replicate s.length true, s.length, s.length⟩)
    ∧ aa_match_metrics
        (seqs.filterMap
          (fun s => (matchSelector mode epsAA epsCum tbl s s).toOption))
        = ⟨1, 1, 1⟩ := by
  refine ⟨fun s hs => ?_, ?_⟩
  · obtain ⟨p, hp⟩ := hres s hs
    exact matchSelector_self epsAA epsCum hA hC mode hmode tbl s p hp
  · rw [selfBatch_eq epsAA epsCum hA hC mode hmode tbl seqs hres]
    unfold aa_match_metrics
    rw [batchAggregate_sums]
    have h1 : (List.map (fun r => countTrue r.matchVector)
        (seqs.map (fun s => (⟨List.replicate s.length true, s.length,
          s.length⟩ : PairResult)))).sum
        = (seqs.map (fun s => s.length)).sum := by
      rw [List.map_map]
      simp only [Function.comp_def, countTrue_replicate_true]
    have h2 : (List.map (fun r => r.n_pred_residues)
        (seqs.map (fun s => (⟨List.replicate s.length true, s.length,
          s.length⟩ : PairResult)))).sum
        = (seqs.map (fun s => s.length)).sum := by
      rw [List.map_map]
      simp only [Function.comp_def]
    have h3 : (List.map (fun r => r.n_truth_residues)
        (seqs.map (fun s => (⟨List.replicate s.length true, s.length,
          s.length⟩ : PairResult)))).sum
        = (seqs.map (fun s => s.length)).sum := by
      rw [List.map_map]
      simp only [Function.comp_def]
    have h4 : List.countP (fun r => fullMatch r)
        (seqs.map (fun s => (⟨List.replicate s.length true, s.length,
          s.length⟩ : PairResult)))
        = seqs.length := by
      rw [List.countP_map]
      simp only [Function.comp_def, fullMatch_replicate]
      exact congrFun List.countP_true seqs
    have h5 : (seqs.map (fun s => (⟨List.replicate s.length true, s.length,
        s.length⟩ : PairResult))).length = seqs.length := List.length_map _ _
    rw [h1, h2, h3, h4, h5]
    have hS : (seqs.map (fun s => s.length)).sum ≠ 0 := by
      obtain ⟨s0, hs0, hs0ne⟩ := hsome
      have hmem : s0.length ∈ seqs.map (fun s => s.length) :=
        List.mem_map_of_mem (fun s => s.length) hs0
      have hle : s0.length ≤ (seqs.map (fun s => s.length)).sum :=
        List.single_le_sum (fun x _ => Nat.zero_le x) s0.length hmem
      have hpos : 0 < s0.length := List.length_pos.mpr hs0ne
      omega
    have hn : seqs.length ≠ 0 :=
      fun h => hne (List.length_eq_zero.mp h)
    unfold metricsOfAcc
    dsimp only
    rw [BatchMetrics.mk.injEq]
    refine ⟨?_, ?_, ?_⟩
    · rw [if_neg hS]
      exact div_self (Nat.cast_ne_zero.mpr hS)
    · rw [if_neg hS]
      exact div_self (Nat.cast_ne_zero.mpr hS)
    · exact div_self (Nat.cast_ne_zero.mpr hn)

/-- C9: evaluating the denovo branch of `main` at its failing input (every
denovo run): `_write_mztab_header` raises `TypeError` from the
`os.linesep()` call of casanovo.py line 310 after `open` has created the
file, so for every possible predict outcome the run ends with a `TypeError`
escaping `main`, the only filesystem event is the creation of the (empty)
mzTab file, which persists, and neither `model_runner.predict` nor the
delete-on-failure handler is ever reached — against the claim that the
header is written first, that no exception escapes, and that the mzTab
file is deleted when prediction fails. -/
theorem C9_denovo_header_raises (ExcKind : Type) (o : Option ExcKind) :
    (mainDenovo ExcKind o).2 = some (Sum.inl PyExc.typeError)
    ∧ (mainDenovo ExcKind o).1 = [FsEvent.createMztab]
    ∧ mztabAfter (mainDenovo ExcKind o).1 = true
    ∧ FsEvent.appendPredictions ∉ (mainDenovo ExcKind o).1
    ∧ FsEvent.removeMztab ∉ (mainDenovo ExcKind o).1 := by
  cases o <;>
    refine ⟨rfl, rfl, rfl, ?_, ?_⟩ <;>
    · intro h
      simp [mainDenovo, writeMztabHeader, pyCall0, osLinesep] at h

theorem coerceResidues_ok_spec :
    ∀ (rs : List (PyVal × PyVal)) (out : List (String × ℚ)),
      coerceResidues rs = Except.ok out →
      ∀ (i : Nat) (am : PyVal × PyVal), rs[i]? = some am →
        ∃ q : ℚ, pyFloatFn am.2 = some q
          ∧ out[i]? = some (pyStrFn am.1, q) := by
  intro rs
  induction rs with
  | nil =>
    intro out h i am ham
    simp at ham
  | cons a rest ih =>
    intro out h i am ham
    simp only [coerceResidues] at h
    cases hq : pyFloatFn a.2 with
    | none => rw [hq] at h; exact Except.noConfusion h
    | some q =>
      rw [hq] at h
      cases hrest : coerceResidues rest with
      | error e => rw [hrest] at h; exact Except.noConfusion h
      | ok out' =>
        rw [hrest] at h
        cases h
        cases i with
        | zero =>
          simp only [List.getElem?_cons_zero] at ham
          cases ham
          exact ⟨q, hq, by simp⟩
        | succ n =>
          simpa using ih out' hrest n am (by simpa using ham)

theorem coerceResidues_bad :
    ∀ rs : List (PyVal × PyVal), (∃ am ∈ rs, pyFloatFn am.2 = none) →
      coerceResidues rs = Except.error ConfigError.rawConvError := by
  intro rs
  induction rs with
  | nil =>
    intro h
    obtain ⟨am, hmem, _⟩ := h
    exact absurd hmem (List.not_mem_nil am)
  | cons a rest ih =>
    intro h
    simp only [coerceResidues]
    cases ha : pyFloatFn a.2 with
    | none => rfl
    | some q =>
      have hrest : ∃ am ∈ rest, pyFloatFn am.2 = none := by
        obtain ⟨am, hmem, hno⟩ := h
        rcases List.mem_cons.mp hmem with heq | hm
        · subst heq
          rw [ha] at hno
          exact Option.noConfusion hno
        · exact ⟨am, hm, hno⟩
      rw [ih hrest]

/-- C10: a successful residues coercion turns every entry into a string key
paired with the exact `float` of its mass; a mass that `float` rejects makes
the phase fail with the raw, uncaught conversion error — not the wrapped
per-key `TypeError` used for the typed configuration values — rather than
being silently kept. -/
theorem C10_residues_coercion (applyType : String → PyVal → Option PyVal)
    (typed tout : List (String × PyVal))
    (rsOk rsBad : List (PyVal × PyVal)) (out : List (String × ℚ)) :
    (coerceResidues rsOk = Except.ok out →
      ∀ (i : Nat) (am : PyVal × PyVal), rsOk[i]? = some am →
        ∃ q : ℚ, pyFloatFn am.2 = some q ∧ out[i]? = some (pyStrFn am.1, q))
    ∧ ((∃ am ∈ rsBad, pyFloatFn am.2 = none) →
        coerceResidues rsBad = Except.error ConfigError.rawConvError)
    ∧ (coerceTyped applyType typed = Except.ok tout →
        (∃ am ∈ rsBad, pyFloatFn am.2 = none) →
        coerceConfig applyType typed rsBad
          = Except.error ConfigError.rawConvError) := by
  refine ⟨coerceResidues_ok_spec rsOk out, coerceResidues_bad rsBad, ?_⟩
  intro htyped hbad
  unfold coerceConfig
  rw [htyped, coerceResidues_bad rsBad hbad]

end Casanovo

namespace Casanovo

section ConcreteEvaluation

attribute [local semireducible] Rat.add Rat.sub Rat.mul Rat.inv Rat.ofScientific

/-- C1: evaluating the spec-modelled engine on the batch of spec §8.7 /
`test_eval_metrics`: the residue counts are 41 and 40 and peptide_precision
is 2/8 as the claim states, but total_matches is 24 — aa_precision 24/41,
aa_recall 24/40 — not the 26 asserted by the claim and by the repository's
own test. -/
theorem C1_spec_scenario :
    batchAggregate specBatch = ⟨24, 41, 40, 2, 8⟩
    ∧ aa_match_metrics specBatch = ⟨24 / 41, 24 / 40, 2 / 8⟩
    ∧ (batchAggregate specBatch).total_matches ≠ 26 :=
  ⟨by decide, by decide, by decide⟩

/-- C2 witness: the convergence step at a concrete one-residue self pair. -/
theorem C2_witness :
    |(0 : ℚ) + [(1 : ℚ)].get ⟨0, Nat.one_pos⟩
        - ((0 : ℚ) + [(1 : ℚ)].get ⟨0, Nat.one_pos⟩)| < 1
    ∧ ((alignFrom 1 1 [(1 : ℚ)] [(1 : ℚ)] 0 0 0 0 [false]).matchVector)[max 0 0]?
        = some (decide (|[(1 : ℚ)].get ⟨0, Nat.one_pos⟩
            - [(1 : ℚ)].get ⟨0, Nat.one_pos⟩| < 1)) := by
  have hconv : |(0 : ℚ) + [(1 : ℚ)].get ⟨0, Nat.one_pos⟩
      - ((0 : ℚ) + [(1 : ℚ)].get ⟨0, Nat.one_pos⟩)| < 1 := by
    rw [sub_self, abs_zero]
    exact one_pos
  exact ⟨hconv,
    ((C2_aligner_step 1 1 [(1 : ℚ)] [(1 : ℚ)] 0 0 0 0 [false] Nat.one_pos
      Nat.one_pos (by decide)).1 hconv).2⟩

/-- C3 witness: the guards evaluated on a concrete one-pair batch. -/
theorem C3_witness :
    (aa_match_metrics [(⟨[true], 1, 1⟩ : PairResult)]).aa_precision
      = (([(⟨[true], 1, 1⟩ : PairResult)].map
            (fun r => countTrue r.matchVector)).sum : ℚ)
          / (Nat.cast (([(⟨[true], 1, 1⟩ : PairResult)].map
              (fun r => r.n_pred_residues)).sum) : ℚ)
    ∧ (aa_match_metrics [(⟨[true], 1, 1⟩ : PairResult)]).aa_recall
      = (([(⟨[true], 1, 1⟩ : PairResult)].map
            (fun r => countTrue r.matchVector)).sum : ℚ)
          / (Nat.cast (([(⟨[true], 1, 1⟩ : PairResult)].map
              (fun r => r.n_truth_residues)).sum) : ℚ) :=
  ⟨(C3_metrics_guards [⟨[true], 1, 1⟩]).1 (by decide),
   (C3_metrics_guards [⟨[true], 1, 1⟩]).2.2.1 (by decide)⟩

/-- C4 witness: the length invariant on a concrete resolvable pair. -/
theorem C4_witness :
    ∃ r, matchSelector "best" (0.1 : ℚ) 0.5 refTable ["S"] ["S"]
        = Except.ok r
      ∧ r.matchVector.length
          = max (["S"] : List String).length (["S"] : List String).length :=
  (C4_match_vector_length "best" 0.1 0.5 refTable ["S"] ["S"]
    [87.032] [87.032] (by decide) (by decide) (Or.inl rfl)).1

/-- C5 witness: mode "best" returning the forward result on a concrete pair
where the forward count is at least the backward count. -/
theorem C5_witness :
    matchSelector "best" (0.1 : ℚ) 0.5 refTable ["S"] ["L"]
      = Except.ok ⟨(aligner (0.1 : ℚ) 0.5 [87.032] [113.084]).matchVector,
          (["S"] : List String).length, (["L"] : List String).length⟩ :=
  (C5_selector_choice 0.1 0.5 refTable ["S"] ["L"] [87.032] [113.084]
    (by decide) (by decide)).1 (by decide)

/-- C6 counterexample: the self-pair of the empty sequence resolves and
fully matches, yet the batch consisting of it has aa_precision 0 (the
empty-input guard), not 1, refuting the claim as stated. -/
theorem C6_counterexample :
    matchSelector "best" (0.1 : ℚ) 0.5 refTable [] [] = Except.ok ⟨[], 0, 0⟩
    ∧ (aa_match_metrics
        (([[]] : List (List String)).filterMap
          (fun s => (matchSelector "best" (0.1 : ℚ) 0.5 refTable s
              s).toOption))).aa_precision ≠ 1 :=
  ⟨by decide, by decide⟩

/-- C6 witness: a concrete nonempty self-pair batch with metrics 1. -/
theorem C6_witness :
    (∀ s ∈ [["S"]], matchSelector "best" (0.1 : ℚ) 0.5 refTable s s
        = Except.ok ⟨List.replicate s.length true, s.length, s.length⟩)
    ∧ aa_match_metrics
        (([["S"]] : List (List String)).filterMap
          (fun s => (matchSelector "best" (0.1 : ℚ) 0.5 refTable s
              s).toOption))
        = ⟨1, 1, 1⟩ :=
  C6_identity_match 0.1 0.5 (by decide) (by decide) "best" (Or.inl rfl)
    refTable [["S"]]
    (by
      intro s hs
      rw [List.mem_singleton] at hs
      subst hs
      exact ⟨[87.032], by decide⟩)
    (by decide) ⟨["S"], by decide, by decide⟩

/-- C8 witness: an unrecognized mode fails with InvalidModeError even on a
table where no token resolves. -/
theorem C8_witness :
    ("denovo" ≠ "best" ∧ "denovo" ≠ "forward" ∧ "denovo" ≠ "backward")
    ∧ matchSelector "denovo" 1 1 [] ["X"] ["Y"]
        = Except.error EngineError.invalidModeError :=
  ⟨by decide, C8_invalid_mode "denovo" (by decide) 1 1 [] ["X"] ["Y"]⟩

/-- C10 witness: a concrete residues mapping that coerces, and a mass
`float` rejects propagating as the raw conversion error. -/
theorem C10_witness :
    (∃ q : ℚ, pyFloatFn (PyVal.vStr "57.021") = some q
      ∧ ([("G", (57021 : ℚ) / 1000)] : List (String × ℚ))[0]?
          = some (pyStrFn (PyVal.vStr "G"), q))
    ∧ coerceResidues [(PyVal.vStr "X", PyVal.vNone)]
        = Except.error ConfigError.rawConvError
    ∧ coerceConfig (fun _ v => some v) [] [(PyVal.vStr "X", PyVal.vNone)]
        = Except.error ConfigError.rawConvError := by
  have h := C10_residues_coercion (fun _ v => some v) [] []
    [(PyVal.vStr "G", PyVal.vStr "57.021")] [(PyVal.vStr "X", PyVal.vNone)]
    [("G", (57021 : ℚ) / 1000)]
  exact ⟨h.1 (by decide) 0 (PyVal.vStr "G", PyVal.vStr "57.021") (by decide),
    h.2.1 ⟨(PyVal.vStr "X", PyVal.vNone), by decide, rfl⟩,
    h.2.2 rfl ⟨(PyVal.vStr "X", PyVal.vNone), by decide, rfl⟩⟩

end ConcreteEvaluation

end Casanovo
